import Mathlib

/-!
Shallow embedding of `terminal_monitor.py` (single-file Python daemon/log-search tool).

Strings are modelled as `List Char`.  Python line-number references point into
`src/terminal_monitor.py`.  Machine integers coming from the CLI (`--limit`,
`--before`, `--after`) and from `int(...)` parses are modelled as `Int`;
list indices and process ids are `Nat`.
-/

namespace TM

/-! ## Python string primitives -/

/-- Characters removed by Python `str.strip()` with no argument (ASCII range). -/
def pySpace (c : Char) : Bool :=
  c == ' ' || c == '\t' || c == '\n' || c == '\r' || c == '\x0b' || c == '\x0c'

/-- Python `str.lstrip()`. -/
def lstrip (s : List Char) : List Char := s.dropWhile pySpace

/-- Python `str.rstrip()`. -/
def rstrip (s : List Char) : List Char := (s.reverse.dropWhile pySpace).reverse

/-- Python `str.strip()`. -/
def strip (s : List Char) : List Char := rstrip (lstrip s)

/-- Python's universal-newline translation (text mode, `newline=None`):
`'\r\n'` and lone `'\r'` are both translated to `'\n'`.  The `prevCR` flag
records whether the previous character was a `'\r'`, whose following `'\n'`
(if any) is absorbed. -/
def univNL (prevCR : Bool) : List Char → List Char
  | [] => []
  | c :: cs =>
    if c = '\n' then
      if prevCR then univNL false cs else '\n' :: univNL false cs
    else if c = '\r' then '\n' :: univNL true cs
    else c :: univNL false cs

/-- Split a character stream at every `'\n'`; the final (possibly empty)
piece is kept, so `splitNL s` always has one more element than the number of
newlines in `s`. -/
def splitNL : List Char → List (List Char)
  | [] => [[]]
  | c :: cs =>
    if c = '\n' then [] :: splitNL cs
    else
      match splitNL cs with
      | [] => [[c]]
      | l :: ls => (c :: l) :: ls

/-- Python text-mode `f.readlines()` restricted to line contents: the file is
opened with universal newlines (`open(log_file, 'r')`, line 192), so the
stream is first newline-translated (lines end at `'\n'`, `'\r'` or `'\r\n'`)
and then split at `'\n'`; one entry per terminated piece plus a final
unterminated piece if nonempty.  (The Python value keeps a `'\n'` terminator
on each line; every use in the source strips each line before use, and
`strip` ignores the terminator, so the model drops them.) -/
def pyReadlines (s : List Char) : List (List Char) :=
  let parts := splitNL (univNL false s)
  if parts.getLast? = some [] then parts.dropLast else parts

/-- Python `str.find(t)` for a single character, as `Option Nat`
(`none` stands for Python's `-1`). -/
def findCharIdx (t : Char) : List Char → Option Nat
  | [] => none
  | c :: cs => if c = t then some 0 else (findCharIdx t cs).map (· + 1)

/-- Python substring test `needle in hay`. -/
def containsSub (needle hay : List Char) : Bool :=
  hay.tails.any (fun t => needle.isPrefixOf t)

/-- Python `str.lower()` (ASCII behaviour). -/
def lowerStr (s : List Char) : List Char := s.map Char.toLower

/-! ## Decimal integers: `str(pid)` and Python `int(...)` -/

/-- Numeric value of a decimal digit character. -/
def dval (c : Char) : Nat := c.toNat - 48

/-- Decimal digit character for `d < 10`. -/
def digitChar (d : Nat) : Char := Char.ofNat (48 + d)

/-- Fuel-driven decimal printer (most significant digit first). -/
def natCharsAux : Nat → Nat → List Char → List Char
  | 0, _, acc => acc
  | fuel + 1, n, acc =>
    if n < 10 then digitChar n :: acc
    else natCharsAux fuel (n / 10) (digitChar (n % 10) :: acc)

/-- Python `str(n)` for a natural number (`f.write(str(os.getpid()))`, line 51). -/
def natChars (n : Nat) : List Char := natCharsAux (n + 1) n []

/-- Digit run with optional single underscores between digits, as accepted by
Python `int(...)` after the first digit. -/
def goDigits : Nat → List Char → Option Nat
  | acc, [] => some acc
  | acc, c :: rest =>
    if c = '_' then
      match rest with
      | [] => none
      | d :: rest2 => if d.isDigit then goDigits (acc * 10 + dval d) rest2 else none
    else if c.isDigit then goDigits (acc * 10 + dval c) rest
    else none

/-- Nonempty digit run starting with a digit. -/
def parseDigitsU : List Char → Option Nat
  | [] => none
  | c :: rest => if c.isDigit then goDigits (dval c) rest else none

/-- Value of a digit string read left to right on top of an accumulator. -/
def digitsVal (acc : Nat) (cs : List Char) : Nat :=
  cs.foldl (fun a c => a * 10 + dval c) acc

/-- Python `int(s)` for ASCII decimal strings: surrounding whitespace is
stripped, one optional sign, then digits (`none` models a raised
`ValueError`). -/
def pyParseInt (cs : List Char) : Option Int :=
  match strip cs with
  | '+' :: rest => (parseDigitsU rest).map Int.ofNat
  | '-' :: rest => (parseDigitsU rest).map (fun n => -(n : Int))
  | rest => (parseDigitsU rest).map Int.ofNat

/-- Python slice `xs[i:]` (negative `i` counts from the end). -/
def pySliceFrom (i : Int) (xs : List α) : List α :=
  if i < 0 then xs.drop ((xs.length + i).toNat) else xs.drop i.toNat

/-! ## LogStore: `log_command` (lines 30-35) and the reader side -/

/-- One formatted log line body: `"[" + timestamp + "] " + command.strip()`
(line 34, without the trailing newline). -/
def logLine (ts text : List Char) : List Char :=
  '[' :: ts ++ ']' :: ' ' :: strip text

/-- `log_command`: append one formatted line plus `'\n'` to the log content. -/
def logAppend (content ts text : List Char) : List Char :=
  content ++ logLine ts text ++ ['\n']

/-- A sequence of `log_command` calls. -/
def logAppendAll (content : List Char) (recs : List (List Char × List Char)) : List Char :=
  recs.foldl (fun c r => logAppend c r.1 r.2) content

/-- Concatenation of freshly formatted log lines (`logAppendAll` from empty). -/
def joinLines (recs : List (List Char × List Char)) : List Char :=
  recs.foldr (fun r acc => logLine r.1 r.2 ++ '\n' :: acc) []

/-- Timestamp/command split of one already-stripped log line (lines 221-232 and
the identical context-line parses at 258-261 and 287-290): find the first `']'`;
if its index is positive, the timestamp is the text between `'['` and `']'` and
the command is the stripped remainder; otherwise the timestamp is empty and the
command is the whole (stripped) line. -/
def parseStripped (line : List Char) : List Char × List Char :=
  match findCharIdx ']' line with
  | some k =>
    if 0 < k then ((line.drop 1).take (k - 1), strip (line.drop (k + 1)))
    else ([], line)
  | none => ([], line)

/-- Read the whole log back: one parsed record per line whose stripped form is
nonempty, in file order (the record-extraction loop at lines 215-232, minus the
match filter). -/
def loadAll (content : List Char) : List (List Char × List Char) :=
  (pyReadlines content).filterMap fun raw =>
    let l := strip raw
    if l = [] then none else some (parseStripped l)

/-! ## SearchEngine: `search_command_log` (lines 163-307) -/

/-- The search request as assembled by `main` for `search_command_log`. -/
structure Query where
  term : List Char
  caseSensitive : Bool
  showTime : Bool
  limit : Option Int
  regex : Bool
  before : Int
  after : Int
deriving DecidableEq

/-- A regex engine: from pattern text and case-sensitivity flag to either a
compiled predicate on command text or `none` (a raised `re.error`).  The
Python `re` module is external to this file, so the search model is
parameterised over it. -/
def RegexEngine : Type := List Char → Bool → Option (List Char → Bool)

/-- Build the match predicate (lines 196-211): a compiled regex when
`regex` is set, otherwise (case-folded) substring containment. -/
def mkPred (eng : RegexEngine) (q : Query) : Option (List Char → Bool) :=
  if q.regex then eng q.term q.caseSensitive
  else if q.caseSensitive then some (fun cmd => containsSub q.term cmd)
  else some (fun cmd => containsSub (lowerStr q.term) (lowerStr cmd))

/-- The scan loop (lines 214-236): enumerate raw lines from index `i`,
strip each, skip empty lines, parse, and keep `(index, timestamp, command)`
for lines whose command satisfies the predicate. -/
def scanAux (pred : List Char → Bool) (i : Nat) :
    List (List Char) → List (Nat × List Char × List Char)
  | [] => []
  | raw :: rest =>
    let l := strip raw
    if l = [] then scanAux pred (i + 1) rest
    else
      let p := parseStripped l
      if pred p.2 then (i, p) :: scanAux pred (i + 1) rest
      else scanAux pred (i + 1) rest

/-- All matches of the predicate over the line list, in file order. -/
def scanMatches (pred : List Char → Bool) (lines : List (List Char)) :
    List (Nat × List Char × List Char) :=
  scanAux pred 0 lines

/-- Limit truncation (lines 239-240): `if limit and len(matches) > limit:
matches = matches[-limit:]` — note Python truthiness on `limit`. -/
def applyLimit (limit : Option Int) (ms : List α) : List α :=
  match limit with
  | none => ms
  | some n => if n ≠ 0 ∧ (ms.length : Int) > n then pySliceFrom (-n) ms else ms

/-- The match list that `search_command_log` renders: scan then truncate. -/
def searchMatchesOf (eng : RegexEngine) (q : Query) (lines : List (List Char)) :
    List (Nat × List Char × List Char) :=
  match mkPred eng q with
  | none => []
  | some pred => applyLimit q.limit (scanMatches pred lines)

/-- Candidate before-context indices of a match (lines 251-253):
`range(max(0, match_index - before), match_index)` guarded by `before > 0`. -/
def beforeIdxs (m : Nat) (before : Int) : List Nat :=
  if 0 < before then
    let s := ((m : Int) - before).toNat
    List.range' s (m - s)
  else []

/-- Candidate after-context indices of a match (lines 280-282):
`range(match_index + 1, min(len(lines), match_index + after + 1))` guarded by
`after > 0`. -/
def afterIdxs (m len : Nat) (after : Int) : List Nat :=
  if 0 < after then
    let e := min len ((m : Int) + after + 1).toNat
    List.range' (m + 1) (e - (m + 1))
  else []

/-- Whether a printed line is a match line (bold) or a context line (grey). -/
inductive RKind where
  | hit
  | ctx
deriving DecidableEq

/-- One printed result line: its source index, match/context kind, the
timestamp actually displayed (`none` when `show_time` is off or the parsed
timestamp is empty), and the command text. -/
structure RLine where
  idx : Nat
  kind : RKind
  shownTs : Option (List Char)
  text : List Char
deriving DecidableEq

/-- Rendering state: the `lines_shown` set (line 247) and the output so far. -/
structure RState where
  shown : List Nat
  out : List RLine
deriving DecidableEq

/-- Formatting of one context line (lines 263-266): the timestamp is shown
only when `show_time` is on and the parsed timestamp is nonempty. -/
def mkCtxLine (showTime : Bool) (i : Nat) (p : List Char × List Char) : RLine :=
  ⟨i, RKind.ctx, (if showTime && p.1 ≠ [] then some p.1 else none), p.2⟩

/-- Formatting of one match line (lines 273-276). -/
def mkHitLine (showTime : Bool) (mt : Nat × List Char × List Char) : RLine :=
  ⟨mt.1, RKind.hit, (if showTime && mt.2.1 ≠ [] then some mt.2.1 else none), mt.2.2⟩

/-- Print one context line (lines 254-270 / 283-299): skipped when the index
was already shown or when the stripped line is empty; otherwise parsed and
appended, and the index is recorded in `lines_shown`. -/
def emitCtx (showTime : Bool) (lines : List (List Char)) (st : RState) (i : Nat) : RState :=
  if i ∈ st.shown then st
  else if strip (lines.getD i []) = [] then st
  else
    { shown := i :: st.shown,
      out := st.out ++ [mkCtxLine showTime i (parseStripped (strip (lines.getD i [])))] }

/-- Render one match window (lines 249-299): before-context, then the match
line — printed unconditionally (lines 272-277) — then after-context. -/
def renderStep (showTime : Bool) (before after : Int) (lines : List (List Char))
    (st : RState) (mt : Nat × List Char × List Char) : RState :=
  let st1 := (beforeIdxs mt.1 before).foldl (emitCtx showTime lines) st
  let st2 : RState :=
    { shown := mt.1 :: st1.shown,
      out := st1.out ++ [mkHitLine showTime mt] }
  (afterIdxs mt.1 lines.length after).foldl (emitCtx showTime lines) st2

/-- Render all match windows in match order starting from an empty
`lines_shown` set. -/
def renderAll (showTime : Bool) (before after : Int) (lines : List (List Char))
    (ms : List (Nat × List Char × List Char)) : List RLine :=
  (ms.foldl (renderStep showTime before after lines) ⟨[], []⟩).out

/-- Rendering invariant: every printed index has been recorded in
`lines_shown`, and no two context lines share an index. -/
def RInv (st : RState) : Prop :=
  (∀ e ∈ st.out, e.idx ∈ st.shown) ∧
  ((st.out.filter (fun e => e.kind == RKind.ctx)).map RLine.idx).Nodup

/-- Outcome of one `blast` search. -/
inductive SearchOutcome where
  | errNotRunning
  | errLogMissing
  | errBadPattern
  | noMatches
  | ok (out : List RLine)
deriving DecidableEq

/-- `search_command_log` (lines 163-307): marker-file existence guard
(lines 179-182), log existence guard (lines 185-188), read lines, compile the
pattern (lines 196-211, exiting before any record is scanned on `re.error`),
scan, truncate, and render (or report no matches, lines 302-303). -/
def searchCommandLog (eng : RegexEngine) (markerExists : Bool)
    (log : Option (List Char)) (q : Query) : SearchOutcome :=
  match markerExists, log with
  | false, _ => SearchOutcome.errNotRunning
  | true, none => SearchOutcome.errLogMissing
  | true, some content =>
    match mkPred eng q with
    | none => SearchOutcome.errBadPattern
    | some _ =>
      match searchMatchesOf eng q (pyReadlines content) with
      | [] => SearchOutcome.noMatches
      | ms => SearchOutcome.ok (renderAll q.showTime q.before q.after (pyReadlines content) ms)

/-- Process exit code of a finished search (errors call `sys.exit(1)`;
success and "no matches" fall through to a normal exit 0). -/
def searchExit : SearchOutcome → Nat
  | SearchOutcome.errNotRunning => 1
  | SearchOutcome.errLogMissing => 1
  | SearchOutcome.errBadPattern => 1
  | SearchOutcome.noMatches => 0
  | SearchOutcome.ok _ => 0

/-- The printed indices of a search result, in print order. -/
def resultIndices : SearchOutcome → List Nat
  | SearchOutcome.ok out => out.map RLine.idx
  | _ => []

/-! ## SingletonGuard / daemon lifecycle -/

/-- System state visible to the guard: the marker file's content (if the file
exists), the pids of live monitor processes, and the pids of live unrelated
processes. -/
structure Sys where
  marker : Option (List Char)
  monitors : List Nat
  foreign : List Nat
deriving DecidableEq

/-- A pid refers to some live process. -/
def isAlive (sys : Sys) (p : Nat) : Bool :=
  p ∈ sys.monitors ∨ p ∈ sys.foreign

/-- The `os.kill(pid, 0)` liveness probe (line 115/347): succeeds exactly when
the pid names a live process (negative pids are treated as not-found here). -/
def livenessProbe (sys : Sys) (p : Int) : Bool :=
  if 0 ≤ p then isAlive sys p.toNat else false

/-- Result of a `start --daemon` invocation as seen by the caller. -/
inductive DOut where
  | alreadyRunning
  | started
  | crashed
deriving DecidableEq

/-- `start_monitoring` (lines 37-67): unconditionally writes its own pid to the
marker file (lines 50-51) and becomes a live (foreground) monitor.  It performs
no marker-file check. -/
def startPlain (sys : Sys) (pid : Nat) : Sys :=
  { sys with marker := some (natChars pid), monitors := pid :: sys.monitors }

/-- `run_as_daemon` (lines 103-161): if the marker file exists, read it and
probe `os.kill(int(pid), 0)`.  `int(pid)` on non-decimal content raises
`ValueError`, which the surrounding `except OSError` (line 118) does not
catch — the process crashes.  A live recorded pid means "already running"
(no state change).  A dead one means the stale marker is removed and the
daemonised child runs `start_monitoring`, writing its own marker. -/
def runAsDaemon (sys : Sys) (newPid : Nat) : Sys × DOut :=
  match sys.marker with
  | some cs =>
    match pyParseInt cs with
    | none => (sys, DOut.crashed)
    | some p =>
      if livenessProbe sys p then (sys, DOut.alreadyRunning)
      else (startPlain { sys with marker := none } newPid, DOut.started)
  | none => (startPlain sys newPid, DOut.started)

/-- A sequence of `start --daemon` invocations, each by a fresh process. -/
def execStarts (sys : Sys) (pids : List Nat) : Sys :=
  pids.foldl (fun s p => (runAsDaemon s p).1) sys

/-- Guard coherence: either no monitor is running, or exactly one is and the
marker file records its pid. -/
def goodSysB (sys : Sys) : Bool :=
  match sys.monitors, sys.marker with
  | [], _ => true
  | [p], some cs => pyParseInt cs == some (p : Int)
  | _, _ => false

/-- Diagnostics printed by the lifecycle commands. -/
inductive Diag where
  | notRunningMsg
  | stoppedMsg
  | errStopMsg
  | runningMsg
  | diedMsg
  | errStatusMsg
deriving DecidableEq

/-- Process-level outcome of a CLI invocation. -/
inductive COutcome where
  | exited (code : Nat)
  | running
  | crashed
deriving DecidableEq

/-- Result of `stop`: the new system state, the diagnostic line, and the
process outcome. -/
structure StopRes where
  sys : Sys
  msg : Diag
  out : COutcome
deriving DecidableEq

/-- `stop_monitor` (lines 309-333): nothing to do if the marker file is
absent; otherwise parse the pid — a `ValueError` is caught by
`except Exception` (line 327) and the handler removes the marker anyway —
then `os.kill(pid, SIGTERM)`: success kills the process, removes hooks and
the marker; a dead pid raises `OSError ⊆ Exception`, again caught, and the
handler removes the marker.  Every path returns normally (exit 0). -/
def stopMonitor (sys : Sys) : StopRes :=
  match sys.marker with
  | none => ⟨sys, Diag.notRunningMsg, COutcome.exited 0⟩
  | some cs =>
    match pyParseInt cs with
    | none => ⟨{ sys with marker := none }, Diag.errStopMsg, COutcome.exited 0⟩
    | some p =>
      if livenessProbe sys p then
        ⟨{ marker := none,
           monitors := sys.monitors.erase p.toNat,
           foreign := sys.foreign.erase p.toNat },
         Diag.stoppedMsg, COutcome.exited 0⟩
      else ⟨{ sys with marker := none }, Diag.errStopMsg, COutcome.exited 0⟩

/-- `show_status` (lines 335-369): reports without mutating state; all
exceptions (including a `ValueError` from `int(...)`) are caught by
`except Exception` (line 368). -/
def showStatus (sys : Sys) : Diag × COutcome :=
  match sys.marker with
  | none => (Diag.notRunningMsg, COutcome.exited 0)
  | some cs =>
    match pyParseInt cs with
    | none => (Diag.errStatusMsg, COutcome.exited 0)
    | some p =>
      if livenessProbe sys p then (Diag.runningMsg, COutcome.exited 0)
      else (Diag.diedMsg, COutcome.exited 0)

/-! ## CLI dispatch: `main` (lines 371-435) -/

/-- The parsed command line. -/
inductive Cli where
  | help
  | start (daemon : Bool)
  | stopCmd
  | statusCmd
  | blastNoTerm
  | blast (q : Query)
deriving DecidableEq

/-- Exit behaviour of one CLI invocation (lines 400-435): bare invocation and
`blast` without a term print usage and exit 0; `start` without `--daemon`
loops in the foreground; `start --daemon` exits 0 both when a daemon was
started and when one was already running (lines 116-117 print and `return`);
`stop` and `status` always return normally; `blast` maps search errors to
exit 1 and everything else to exit 0. -/
def cliRun (eng : RegexEngine) (sys : Sys) (log : Option (List Char)) (newPid : Nat) :
    Cli → COutcome
  | Cli.help => COutcome.exited 0
  | Cli.start false => COutcome.running
  | Cli.start true =>
    match (runAsDaemon sys newPid).2 with
    | DOut.crashed => COutcome.crashed
    | _ => COutcome.exited 0
  | Cli.stopCmd => (stopMonitor sys).out
  | Cli.statusCmd => (showStatus sys).2
  | Cli.blastNoTerm => COutcome.exited 0
  | Cli.blast q => COutcome.exited (searchExit (searchCommandLog eng sys.marker.isSome log q))

/-- Timestamps produced by `strftime("%Y-%m-%d %H:%M:%S")` (line 32) use only
digits, `'-'`, `':'` and `' '`. -/
def tsOkB (ts : List Char) : Bool :=
  ts.all (fun c => c.isDigit || c == '-' || c == ':' || c == ' ')

/-- The `blast` pipeline dispatched against a full system state: only
`os.path.exists(MONITOR_PID_FILE)` (line 179) is consulted — the marker
file's content and the recorded process's liveness are never read. -/
def searchRun (eng : RegexEngine) (sys : Sys) (log : Option (List Char)) (q : Query) :
    SearchOutcome :=
  searchCommandLog eng sys.marker.isSome log q

/-! ## Concrete fixtures used by closed witness/counterexample theorems -/

/-- A regex engine that rejects every pattern (used only with non-regex
queries, or to exercise the `re.error` path). -/
def engNone : RegexEngine := fun _ _ => none

/-- Substring query for `foo` with one line of after-context. -/
def qAfter1 : Query :=
  ⟨['f', 'o', 'o'], true, true, none, false, 0, 1⟩

/-- The same query with the regex flag set. -/
def qRegex : Query :=
  ⟨['f', 'o', 'o'], true, true, none, true, 0, 1⟩

/-- Two consecutive matching log lines. -/
def logTwoFoo : List Char := ("[t] foo\n[t] foo\n").toList

/-- A coherent state with one live monitor recorded in the marker file. -/
def sysOneLive : Sys := ⟨some (natChars 5), [5], []⟩

/-- A state with a marker file whose recorded process is dead. -/
def sysStale : Sys := ⟨some (natChars 99), [], []⟩

/-- The empty system: no marker, no processes. -/
def sysEmpty : Sys := ⟨none, [], []⟩

/-- A marker file holding non-decimal content. -/
def sysGarbage : Sys := ⟨some ("abc").toList, [], []⟩

/-- Output of the fixture search (defined so the `C2` witness can name it). -/
def outTwoFoo : List RLine :=
  match searchCommandLog engNone true (some logTwoFoo) qAfter1 with
  | SearchOutcome.ok o => o
  | _ => []

/-- A two-element match list fixture. -/
def msTwo : List (Nat × List Char × List Char) :=
  [(0, [], ['a']), (1, [], ['b'])]

/-- A one-record append fixture: a well-formed timestamp and a simple text. -/
def recOne : List Char × List Char :=
  (("2024-01-01 00:00:00").toList, ("  echo hi ").toList)

/-! ## String lemmas -/

theorem dropWhile_head_neg (p : Char → Bool) :
    ∀ l : List Char, l.dropWhile p = [] ∨
      ∃ c t, l.dropWhile p = c :: t ∧ p c = false := by
  intro l
  induction l with
  | nil => exact Or.inl rfl
  | cons c cs ih =>
    by_cases h : p c
    · simpa [List.dropWhile_cons, h] using ih
    · exact Or.inr ⟨c, cs, by simp [List.dropWhile_cons, h], by simpa using h⟩

theorem lstrip_cons_neg {c : Char} {s : List Char} (h : pySpace c = false) :
    lstrip (c :: s) = c :: s := by
  simp [lstrip, List.dropWhile_cons, h]

theorem lstrip_cons_pos {c : Char} {s : List Char} (h : pySpace c = true) :
    lstrip (c :: s) = lstrip s := by
  simp [lstrip, List.dropWhile_cons, h]

theorem lstrip_head_neg (s : List Char) :
    lstrip s = [] ∨ ∃ c t, lstrip s = c :: t ∧ pySpace c = false :=
  dropWhile_head_neg pySpace s

theorem rstrip_concat_neg {c : Char} {ys : List Char} (h : pySpace c = false) :
    rstrip (ys ++ [c]) = ys ++ [c] := by
  simp [rstrip, List.dropWhile_cons, h]

theorem rstrip_last_neg (s : List Char) :
    rstrip s = [] ∨ ∃ s0 c, rstrip s = s0 ++ [c] ∧ pySpace c = false := by
  rcases dropWhile_head_neg pySpace s.reverse with h | ⟨c, t, h, hc⟩
  · exact Or.inl (by simp [rstrip, h])
  · exact Or.inr ⟨t.reverse, c, by simp [rstrip, h], hc⟩

theorem rstrip_prefix (s : List Char) : ∃ sp, s = rstrip s ++ sp := by
  refine ⟨(s.reverse.takeWhile pySpace).reverse, ?_⟩
  calc s = s.reverse.reverse := by rw [s.reverse_reverse]
    _ = (s.reverse.takeWhile pySpace ++ s.reverse.dropWhile pySpace).reverse := by
        rw [List.takeWhile_append_dropWhile]
    _ = rstrip s ++ (s.reverse.takeWhile pySpace).reverse := by
        rw [List.reverse_append]; rfl

theorem lstrip_rstrip_of_head_neg {s : List Char}
    (h : lstrip s = s) : lstrip (rstrip s) = rstrip s := by
  rcases rstrip_last_neg s with h0 | ⟨s0, c, hs, hc⟩
  · simp [h0, lstrip]
  · obtain ⟨sp, hsp⟩ := rstrip_prefix s
    rcases lstrip_head_neg s with h1 | ⟨d, t, ht, hd⟩
    · -- lstrip s = [] contradicts lstrip s = s unless s = [], but then rstrip s = []
      rw [h] at h1
      subst h1
      simp [rstrip, lstrip]
    · rw [h] at ht
      -- s starts with a non-space d; rstrip s is a prefix of s, and is nonempty
      rw [hs]
      rcases s0 with _ | ⟨e, s0t⟩
      · simp only [List.nil_append]
        refine lstrip_cons_neg ?_
        have hdc : d = c := by
          have h2 := hsp
          rw [hs, ht] at h2
          simpa using congrArg List.head? h2
        exact hdc ▸ hd
      · have hde : d = e := by
          have h2 := hsp
          rw [hs, ht] at h2
          simpa using congrArg List.head? h2
        subst hde
        exact lstrip_cons_neg hd

theorem rstrip_idem (s : List Char) : rstrip (rstrip s) = rstrip s := by
  rcases rstrip_last_neg s with h0 | ⟨s0, c, hs, hc⟩
  · rw [h0]; rfl
  · rw [hs]; exact rstrip_concat_neg hc

theorem lstrip_idem (s : List Char) : lstrip (lstrip s) = lstrip s := by
  rcases lstrip_head_neg s with h0 | ⟨c, t, hs, hc⟩
  · rw [h0]; rfl
  · rw [hs]; exact lstrip_cons_neg hc

theorem strip_idem (s : List Char) : strip (strip s) = strip s := by
  unfold strip
  rw [lstrip_rstrip_of_head_neg (lstrip_idem s), rstrip_idem]

theorem strip_cons_space {c : Char} {s : List Char} (h : pySpace c = true) :
    strip (c :: s) = strip s := by
  unfold strip; rw [lstrip_cons_pos h]

theorem strip_all_neg {s : List Char} (h : ∀ c ∈ s, pySpace c = false) :
    strip s = s := by
  have hl : lstrip s = s := by
    cases s with
    | nil => rfl
    | cons c t => exact lstrip_cons_neg (h c (by simp))
  have hr : rstrip s = s := by
    cases hs : s.reverse with
    | nil =>
      have hnil : s = [] := by simpa using congrArg List.reverse hs
      rw [hnil]; rfl
    | cons c t =>
      have hc : pySpace c = false := by
        refine h c ?_
        have : c ∈ s.reverse := by rw [hs]; simp
        simpa using this
      have : rstrip s = (c :: t).reverse := by
        simp [rstrip, hs, List.dropWhile_cons, hc]
      rw [this, ← hs, s.reverse_reverse]
  unfold strip; rw [hl, hr]

/-! ## splitNL / pyReadlines lemmas -/

theorem splitNL_no_nl {xs : List Char} (h : '\n' ∉ xs) : splitNL xs = [xs] := by
  induction xs with
  | nil => rfl
  | cons c cs ih =>
    have hc : c ≠ '\n' := fun hh => h (hh ▸ List.mem_cons_self c cs)
    have hcs : splitNL cs = [cs] := ih (fun hm => h (List.mem_cons_of_mem c hm))
    rw [splitNL, if_neg hc, hcs]

theorem splitNL_append_nl {xs : List Char} (rest : List Char) (h : '\n' ∉ xs) :
    splitNL (xs ++ '\n' :: rest) = xs :: splitNL rest := by
  induction xs with
  | nil => simp [splitNL]
  | cons c cs ih =>
    have hc : c ≠ '\n' := fun hh => h (hh ▸ List.mem_cons_self c cs)
    have hcs := ih (fun hm => h (List.mem_cons_of_mem c hm))
    rw [List.cons_append, splitNL, if_neg hc, hcs]

theorem univNL_no_cr {s : List Char} (h : '\r' ∉ s) : univNL false s = s := by
  induction s with
  | nil => rfl
  | cons c cs ih =>
    have hc : c ≠ '\r' := fun hh => h (hh ▸ List.mem_cons_self c cs)
    have hcs : univNL false cs = cs := ih (fun hm => h (List.mem_cons_of_mem c hm))
    by_cases hn : c = '\n'
    · subst hn
      rw [univNL, if_pos rfl, if_neg (by decide), hcs]
    · rw [univNL, if_neg hn, if_neg hc, hcs]

theorem joinLines_cons (r : List Char × List Char) (rs : List (List Char × List Char)) :
    joinLines (r :: rs) = logLine r.1 r.2 ++ '\n' :: joinLines rs := rfl

theorem splitNL_joinLines {recs : List (List Char × List Char)}
    (h : ∀ r ∈ recs, '\n' ∉ logLine r.1 r.2) :
    splitNL (joinLines recs) = recs.map (fun r => logLine r.1 r.2) ++ [[]] := by
  induction recs with
  | nil => rfl
  | cons r rs ih =>
    rw [joinLines_cons, splitNL_append_nl _ (h r (by simp)),
      ih (fun x hx => h x (List.mem_cons_of_mem r hx))]
    simp

theorem cr_not_mem_joinLines {recs : List (List Char × List Char)}
    (h : ∀ r ∈ recs, '\r' ∉ logLine r.1 r.2) : '\r' ∉ joinLines recs := by
  induction recs with
  | nil => intro hm; cases hm
  | cons r rs ih =>
    intro hm
    rw [joinLines_cons] at hm
    rcases List.mem_append.1 hm with h1 | h1
    · exact h r (by simp) h1
    · rcases List.mem_cons.1 h1 with h2 | h2
      · exact absurd h2.symm (by decide)
      · exact ih (fun x hx => h x (List.mem_cons_of_mem r hx)) h2

theorem pyReadlines_joinLines {recs : List (List Char × List Char)}
    (h : ∀ r ∈ recs, '\n' ∉ logLine r.1 r.2 ∧ '\r' ∉ logLine r.1 r.2) :
    pyReadlines (joinLines recs) = recs.map (fun r => logLine r.1 r.2) := by
  unfold pyReadlines
  rw [univNL_no_cr (cr_not_mem_joinLines (fun r hr => (h r hr).2)),
    splitNL_joinLines (fun r hr => (h r hr).1)]
  simp

/-! ## findCharIdx / parse lemmas -/

theorem findCharIdx_eq_none {t : Char} : ∀ {s : List Char}, t ∉ s → findCharIdx t s = none := by
  intro s
  induction s with
  | nil => intro _; rfl
  | cons c cs ih =>
    intro h
    have hc : c ≠ t := fun hh => h (hh ▸ List.mem_cons_self c cs)
    have : findCharIdx t cs = none := ih (fun hm => h (List.mem_cons_of_mem c hm))
    simp [findCharIdx, hc, this]

theorem findCharIdx_append {t : Char} (xs rest : List Char) (h : t ∉ xs) :
    findCharIdx t (xs ++ t :: rest) = some xs.length := by
  induction xs with
  | nil => simp [findCharIdx]
  | cons c cs ih =>
    have hc : c ≠ t := fun hh => h (hh ▸ List.mem_cons_self c cs)
    have := ih (fun hm => h (List.mem_cons_of_mem c hm))
    simp [findCharIdx, hc, this]

theorem take_len_append (xs ys : List α) : (xs ++ ys).take xs.length = xs := by
  induction xs with
  | nil => rfl
  | cons c cs ih => simp [ih]

theorem drop_len_append (xs ys : List α) : (xs ++ ys).drop xs.length = ys := by
  induction xs with
  | nil => rfl
  | cons c cs ih => simp [ih]

/-! ## Log-line formatting and parsing lemmas -/

theorem tsOk_mem {ts : List Char} (h : tsOkB ts = true) {c : Char} (hc : c ∈ ts) :
    c.isDigit = true ∨ c = '-' ∨ c = ':' ∨ c = ' ' := by
  have := (List.all_eq_true.1 h) c hc
  rcases Bool.or_eq_true_iff.1 this with h1 | h2
  · rcases Bool.or_eq_true_iff.1 h1 with h3 | h4
    · rcases Bool.or_eq_true_iff.1 h3 with h5 | h6
      · exact Or.inl h5
      · exact Or.inr (Or.inl (by simpa using h6))
    · exact Or.inr (Or.inr (Or.inl (by simpa using h4)))
  · exact Or.inr (Or.inr (Or.inr (by simpa using h2)))

theorem tsOk_rb_not_mem {ts : List Char} (h : tsOkB ts = true) : ']' ∉ ts := by
  intro hm
  rcases tsOk_mem h hm with h1 | h1 | h1 | h1 <;> simp_all

theorem tsOk_nl_not_mem {ts : List Char} (h : tsOkB ts = true) : '\n' ∉ ts := by
  intro hm
  rcases tsOk_mem h hm with h1 | h1 | h1 | h1 <;> simp_all

theorem tsOk_cr_not_mem {ts : List Char} (h : tsOkB ts = true) : '\r' ∉ ts := by
  intro hm
  rcases tsOk_mem h hm with h1 | h1 | h1 | h1 <;> simp_all

theorem nl_not_mem_logLine {ts text : List Char} (hts : tsOkB ts = true)
    (htext : '\n' ∉ strip text) : '\n' ∉ logLine ts text := by
  intro hm
  unfold logLine at hm
  rcases List.mem_cons.1 hm with h1 | h1
  · exact absurd h1.symm (by decide)
  · rcases List.mem_append.1 h1 with h2 | h2
    · exact tsOk_nl_not_mem hts h2
    · rcases List.mem_cons.1 h2 with h3 | h3
      · exact absurd h3.symm (by decide)
      · rcases List.mem_cons.1 h3 with h4 | h4
        · exact absurd h4.symm (by decide)
        · exact htext h4

theorem cr_not_mem_logLine {ts text : List Char} (hts : tsOkB ts = true)
    (htext : '\r' ∉ strip text) : '\r' ∉ logLine ts text := by
  intro hm
  unfold logLine at hm
  rcases List.mem_cons.1 hm with h1 | h1
  · exact absurd h1.symm (by decide)
  · rcases List.mem_append.1 h1 with h2 | h2
    · exact tsOk_cr_not_mem hts h2
    · rcases List.mem_cons.1 h2 with h3 | h3
      · exact absurd h3.symm (by decide)
      · rcases List.mem_cons.1 h3 with h4 | h4
        · exact absurd h4.symm (by decide)
        · exact htext h4

theorem rstrip_concat_space {c : Char} {ys : List Char} (h : pySpace c = true) :
    rstrip (ys ++ [c]) = rstrip ys := by
  simp [rstrip, List.dropWhile_cons, h]

theorem strip_logLine {ts : List Char} (text : List Char) :
    strip (logLine ts text) =
      '[' :: ts ++ ']' :: (if strip text = [] then [] else ' ' :: strip text) := by
  have hlb : pySpace '[' = false := by decide
  have hl : lstrip (logLine ts text) = logLine ts text := by
    unfold logLine
    exact lstrip_cons_neg hlb
  have hstrip : strip (logLine ts text) = rstrip (logLine ts text) := by
    unfold strip; rw [hl]
  rcases rstrip_last_neg (lstrip text) with h0 | ⟨s0, c, hs, hc⟩
  · -- strip text = [], so the line ends with "] " and rstrip eats the space
    have htext : strip text = [] := h0
    rw [hstrip, htext]
    unfold logLine
    rw [htext]
    have shape : '[' :: ts ++ ']' :: ' ' :: ([] : List Char)
        = ('[' :: ts ++ [']']) ++ [' '] := by simp
    rw [shape, rstrip_concat_space (by decide), rstrip_concat_neg (by decide)]
    simp
  · -- strip text ends in a non-space character, so rstrip is the identity
    have htext : strip text = s0 ++ [c] := hs
    rw [hstrip]
    unfold logLine
    rw [htext]
    have shape : '[' :: ts ++ ']' :: ' ' :: (s0 ++ [c])
        = ('[' :: ts ++ ']' :: ' ' :: s0) ++ [c] := by simp
    rw [shape, rstrip_concat_neg hc]
    have : (s0 ++ [c] : List Char) ≠ [] := by simp
    simp [this]

theorem parse_bracket_line {ts rest : List Char} (h : ']' ∉ ts) :
    parseStripped ('[' :: ts ++ ']' :: rest) = (ts, strip rest) := by
  have hfind : findCharIdx ']' ('[' :: ts ++ ']' :: rest) = some (ts.length + 1) := by
    have : ']' ∉ ('[' :: ts) := by
      intro hm
      rcases List.mem_cons.1 hm with h1 | h1
      · exact absurd h1.symm (by decide)
      · exact h h1
    have happ := findCharIdx_append ('[' :: ts) rest this
    simpa using happ
  unfold parseStripped
  rw [hfind]
  have hpos : 0 < ts.length + 1 := Nat.succ_pos _
  dsimp only
  rw [if_pos hpos]
  have hdrop1 : ('[' :: ts ++ ']' :: rest).drop 1 = ts ++ ']' :: rest := rfl
  have htake : (ts ++ ']' :: rest).take (ts.length + 1 - 1) = ts := by
    simp [take_len_append ts (']' :: rest)]
  have hdrop2 : ('[' :: ts ++ ']' :: rest).drop (ts.length + 1 + 1) = rest := by
    have shape : '[' :: ts ++ ']' :: rest = ('[' :: ts ++ [']']) ++ rest := by simp
    have hlen : ('[' :: ts ++ [']']).length = ts.length + 1 + 1 := by simp
    rw [shape, ← hlen, drop_len_append]
  rw [hdrop1, htake, hdrop2]

theorem parse_logLine {ts : List Char} (text : List Char) (hts : tsOkB ts = true) :
    parseStripped (strip (logLine ts text)) = (ts, strip text) := by
  rw [strip_logLine text]
  by_cases h : strip text = []
  · rw [if_pos h, parse_bracket_line (tsOk_rb_not_mem hts), h]
    rfl
  · rw [if_neg h, parse_bracket_line (tsOk_rb_not_mem hts)]
    have : strip (' ' :: strip text) = strip text := by
      rw [strip_cons_space (by decide), strip_idem]
    rw [this]

theorem parse_no_rb {l : List Char} (h : ']' ∉ l) : parseStripped l = ([], l) := by
  unfold parseStripped
  rw [findCharIdx_eq_none h]

/-! ## Append/read round-trip -/

theorem logAppendAll_eq_joinLines :
    ∀ (recs : List (List Char × List Char)) (c : List Char),
      logAppendAll c recs = c ++ joinLines recs := by
  intro recs
  induction recs with
  | nil => intro c; simp [logAppendAll, joinLines]
  | cons r rs ih =>
    intro c
    have h1 : logAppendAll c (r :: rs) = logAppendAll (logAppend c r.1 r.2) rs := rfl
    rw [h1, ih, joinLines_cons]
    unfold logAppend
    simp

theorem filterMap_eq_map_of_some {f : α → Option β} {g : α → β} :
    ∀ {l : List α}, (∀ x ∈ l, f x = some (g x)) → l.filterMap f = l.map g := by
  intro l
  induction l with
  | nil => intro _; rfl
  | cons x xs ih =>
    intro h
    rw [List.filterMap_cons, h x (by simp), List.map_cons,
      ih (fun y hy => h y (List.mem_cons_of_mem x hy))]

theorem loadAll_roundtrip {recs : List (List Char × List Char)}
    (h : ∀ r ∈ recs, tsOkB r.1 = true ∧ '\n' ∉ strip r.2 ∧ '\r' ∉ strip r.2) :
    loadAll (logAppendAll [] recs) = recs.map (fun r => (r.1, strip r.2)) := by
  rw [logAppendAll_eq_joinLines, List.nil_append]
  unfold loadAll
  rw [pyReadlines_joinLines (fun r hr =>
    ⟨nl_not_mem_logLine (h r hr).1 (h r hr).2.1,
     cr_not_mem_logLine (h r hr).1 (h r hr).2.2⟩)]
  rw [List.filterMap_map]
  refine filterMap_eq_map_of_some ?_
  intro r hr
  have hts := (h r hr).1
  have hne : strip (logLine r.1 r.2) ≠ [] := by
    rw [strip_logLine r.2]; simp
  simp only [Function.comp_apply, if_neg hne]
  rw [parse_logLine r.2 hts]

/-! ## Decimal printing / parsing round-trip -/

theorem digitChar_isDigit {d : Nat} (h : d < 10) : (digitChar d).isDigit = true := by
  interval_cases d <;> decide

theorem digitChar_dval {d : Nat} (h : d < 10) : dval (digitChar d) = d := by
  interval_cases d <;> decide

theorem isDigit_ne {c d : Char} (h : c.isDigit = true) (hd : d.isDigit = false) : c ≠ d := by
  intro he
  rw [he, hd] at h
  cases h

theorem natCharsAux_eq : ∀ n f (acc : List Char), n < f →
    natCharsAux f n acc = natChars n ++ acc := by
  intro n
  induction n using Nat.strong_induction_on with
  | _ n ih =>
    intro f acc hf
    cases f with
    | zero => omega
    | succ f' =>
      by_cases h10 : n < 10
      · rw [natCharsAux, if_pos h10]
        have : natChars n = [digitChar n] := by
          unfold natChars
          rw [natCharsAux, if_pos h10]
        rw [this]
        rfl
      · have hdiv : n / 10 < n := Nat.div_lt_self (by omega) (by omega)
        rw [natCharsAux, if_neg h10]
        have step : natChars n = natChars (n / 10) ++ [digitChar (n % 10)] := by
          unfold natChars
          rw [natCharsAux, if_neg h10]
          exact ih (n / 10) hdiv n [digitChar (n % 10)] (by omega)
        rw [ih (n / 10) hdiv f' (digitChar (n % 10) :: acc) (by omega), step]
        simp

theorem natChars_lt {n : Nat} (h : n < 10) : natChars n = [digitChar n] := by
  unfold natChars
  rw [natCharsAux, if_pos h]

theorem natChars_ge {n : Nat} (h : 10 ≤ n) :
    natChars n = natChars (n / 10) ++ [digitChar (n % 10)] := by
  unfold natChars
  rw [natCharsAux, if_neg (by omega)]
  exact natCharsAux_eq (n / 10) n [digitChar (n % 10)]
    (Nat.div_lt_self (by omega) (by omega))

theorem natChars_ne_nil (n : Nat) : natChars n ≠ [] := by
  rcases Nat.lt_or_ge n 10 with h | h
  · rw [natChars_lt h]; simp
  · rw [natChars_ge h]; simp

theorem natChars_all_digit : ∀ n, ∀ c ∈ natChars n, c.isDigit = true := by
  intro n
  induction n using Nat.strong_induction_on with
  | _ n ih =>
    intro c hc
    rcases Nat.lt_or_ge n 10 with h | h
    · rw [natChars_lt h] at hc
      rcases List.mem_singleton.1 hc with rfl
      exact digitChar_isDigit h
    · rw [natChars_ge h] at hc
      rcases List.mem_append.1 hc with h1 | h1
      · exact ih (n / 10) (Nat.div_lt_self (by omega) (by omega)) c h1
      · rcases List.mem_singleton.1 h1 with rfl
        exact digitChar_isDigit (Nat.mod_lt _ (by omega))

theorem natChars_head (p : Nat) :
    ∃ c rest, natChars p = c :: rest ∧ c.isDigit = true := by
  cases hc : natChars p with
  | nil => exact absurd hc (natChars_ne_nil p)
  | cons c rest =>
    exact ⟨c, rest, rfl, natChars_all_digit p c (by rw [hc]; simp)⟩

theorem goDigits_all_digit : ∀ (cs : List Char) (acc : Nat),
    (∀ c ∈ cs, c.isDigit = true) → goDigits acc cs = some (digitsVal acc cs) := by
  intro cs
  induction cs with
  | nil => intro acc _; rfl
  | cons c rest ih =>
    intro acc h
    have hcd : c.isDigit = true := h c (by simp)
    have hcu : c ≠ '_' := isDigit_ne hcd (by decide)
    rw [goDigits.eq_def]
    dsimp only
    rw [if_neg hcu, if_pos hcd,
      ih (acc * 10 + dval c) (fun x hx => h x (List.mem_cons_of_mem c hx))]
    rfl

theorem parseDigitsU_digits {cs : List Char} (hne : cs ≠ [])
    (h : ∀ c ∈ cs, c.isDigit = true) : parseDigitsU cs = some (digitsVal 0 cs) := by
  cases cs with
  | nil => exact absurd rfl hne
  | cons c rest =>
    have hcd : c.isDigit = true := h c (by simp)
    rw [parseDigitsU, if_pos hcd,
      goDigits_all_digit rest (dval c) (fun x hx => h x (List.mem_cons_of_mem c hx))]
    have : digitsVal 0 (c :: rest) = digitsVal (dval c) rest := by
      unfold digitsVal
      simp
    rw [this]

theorem digitsVal_append_single (acc : Nat) (xs : List Char) (c : Char) :
    digitsVal acc (xs ++ [c]) = digitsVal acc xs * 10 + dval c := by
  unfold digitsVal
  rw [List.foldl_append]
  rfl

theorem digitsVal_natChars : ∀ n, digitsVal 0 (natChars n) = n := by
  intro n
  induction n using Nat.strong_induction_on with
  | _ n ih =>
    rcases Nat.lt_or_ge n 10 with h | h
    · rw [natChars_lt h]
      have : digitsVal 0 [digitChar n] = 0 * 10 + dval (digitChar n) := rfl
      rw [this, digitChar_dval h]
      omega
    · rw [natChars_ge h, digitsVal_append_single,
        ih (n / 10) (Nat.div_lt_self (by omega) (by omega)),
        digitChar_dval (Nat.mod_lt _ (by omega))]
      omega

theorem digit_not_space {c : Char} (h : c.isDigit = true) : pySpace c = false := by
  by_contra hne
  have hs : pySpace c = true := by simpa using hne
  unfold pySpace at hs
  rcases Bool.or_eq_true_iff.1 hs with h1 | h1
  · rcases Bool.or_eq_true_iff.1 h1 with h2 | h2
    · rcases Bool.or_eq_true_iff.1 h2 with h3 | h3
      · rcases Bool.or_eq_true_iff.1 h3 with h4 | h4
        · rcases Bool.or_eq_true_iff.1 h4 with h5 | h5
          · rw [eq_of_beq h5] at h; cases h
          · rw [eq_of_beq h5] at h; cases h
        · rw [eq_of_beq h4] at h; cases h
      · rw [eq_of_beq h3] at h; cases h
    · rw [eq_of_beq h2] at h; cases h
  · rw [eq_of_beq h1] at h; cases h

theorem pyParseInt_natChars (p : Nat) : pyParseInt (natChars p) = some (p : Int) := by
  have hall := natChars_all_digit p
  have hstrip : strip (natChars p) = natChars p :=
    strip_all_neg (fun c hc => digit_not_space (hall c hc))
  unfold pyParseInt
  rw [hstrip]
  obtain ⟨c, rest, hcr, hcd⟩ := natChars_head p
  rw [hcr]
  have hplus : c ≠ '+' := isDigit_ne hcd (by decide)
  have hminus : c ≠ '-' := isDigit_ne hcd (by decide)
  have hallc : ∀ x ∈ c :: rest, x.isDigit = true := by
    rw [← hcr]; exact hall
  split
  · rename_i heq
    exact absurd (List.head_eq_of_cons_eq heq.symm).symm hplus
  · rename_i heq
    exact absurd (List.head_eq_of_cons_eq heq.symm).symm hminus
  · rw [parseDigitsU_digits (by simp) hallc]
    have : digitsVal 0 (c :: rest) = p := by
      rw [← hcr]; exact digitsVal_natChars p
    rw [this]
    rfl

/-! ## SingletonGuard lemmas -/

theorem goodSysB_cases {sys : Sys} (h : goodSysB sys = true) :
    sys.monitors = [] ∨
      ∃ p cs, sys.monitors = [p] ∧ sys.marker = some cs ∧ pyParseInt cs = some (p : Int) := by
  unfold goodSysB at h
  cases hm : sys.monitors with
  | nil => exact Or.inl rfl
  | cons a l =>
    cases l with
    | nil =>
      cases hk : sys.marker with
      | none => rw [hm, hk] at h; cases h
      | some cs =>
        rw [hm, hk] at h
        exact Or.inr ⟨a, cs, rfl, rfl, by simpa using h⟩
    | cons b l2 =>
      cases hk : sys.marker with
      | none => rw [hm, hk] at h; cases h
      | some cs => rw [hm, hk] at h; cases h

theorem goodSysB_singleton (p : Nat) (marker : Option (List Char)) (foreign : List Nat)
    (cs : List Char) (hm : marker = some cs) (hp : pyParseInt cs = some (p : Int)) :
    goodSysB ⟨marker, [p], foreign⟩ = true := by
  subst hm
  unfold goodSysB
  simp [hp]

theorem goodSysB_startPlain {sys : Sys} (hmon : sys.monitors = []) (p : Nat) :
    goodSysB (startPlain sys p) = true := by
  unfold startPlain goodSysB
  rw [hmon]
  simp [pyParseInt_natChars]

theorem runAsDaemon_good {sys : Sys} (h : goodSysB sys = true) (p : Nat) :
    goodSysB (runAsDaemon sys p).1 = true := by
  rcases goodSysB_cases h with hmon | ⟨q, cs, hmon, hmar, hparse⟩
  · unfold runAsDaemon
    cases hmar : sys.marker with
    | none =>
      dsimp only
      exact goodSysB_startPlain hmon p
    | some cs =>
      dsimp only
      cases hparse : pyParseInt cs with
      | none => exact h
      | some q =>
        dsimp only
        by_cases hlive : livenessProbe sys q
        · rw [if_pos hlive]; exact h
        · rw [if_neg hlive]
          exact goodSysB_startPlain (by simpa using hmon) p
  · -- exactly one monitor, recorded in the marker: the probe must succeed
    unfold runAsDaemon
    rw [hmar]
    dsimp only
    rw [hparse]
    dsimp only
    have hlive : livenessProbe sys ((q : Nat) : Int) = true := by
      unfold livenessProbe
      rw [if_pos (by omega)]
      unfold isAlive
      rw [hmon]
      simp
    rw [if_pos hlive]
    exact h

theorem execStarts_good : ∀ (pids : List Nat) (sys : Sys), goodSysB sys = true →
    goodSysB (execStarts sys pids) = true := by
  intro pids
  induction pids with
  | nil => intro sys h; exact h
  | cons p ps ih =>
    intro sys h
    exact ih (runAsDaemon sys p).1 (runAsDaemon_good h p)

theorem goodSysB_len {sys : Sys} (h : goodSysB sys = true) : sys.monitors.length ≤ 1 := by
  rcases goodSysB_cases h with hmon | ⟨q, cs, hmon, _, _⟩
  · rw [hmon]; simp
  · rw [hmon]; simp

theorem runAsDaemon_already {sys : Sys} {cs : List Char} {p : Int} (newPid : Nat)
    (hmar : sys.marker = some cs) (hparse : pyParseInt cs = some p)
    (hlive : livenessProbe sys p = true) :
    runAsDaemon sys newPid = (sys, DOut.alreadyRunning) := by
  unfold runAsDaemon
  rw [hmar]
  dsimp only
  rw [hparse]
  dsimp only
  rw [if_pos hlive]

theorem runAsDaemon_stale {sys : Sys} {cs : List Char} {p : Int} (newPid : Nat)
    (hmar : sys.marker = some cs) (hparse : pyParseInt cs = some p)
    (hlive : livenessProbe sys p = false) :
    (runAsDaemon sys newPid).2 = DOut.started ∧
      (runAsDaemon sys newPid).1.marker = some (natChars newPid) ∧
      (runAsDaemon sys newPid).1.monitors = newPid :: sys.monitors := by
  unfold runAsDaemon
  rw [hmar]
  dsimp only
  rw [hparse]
  dsimp only
  rw [if_neg (by simp [hlive])]
  exact ⟨rfl, rfl, rfl⟩

/-! ## stop / status lemmas -/

theorem stopMonitor_marker (sys : Sys) : (stopMonitor sys).sys.marker = none := by
  unfold stopMonitor
  split
  · rename_i hmar
    simpa using hmar
  · rename_i cs hmar
    split
    · rfl
    · split <;> rfl

theorem stopMonitor_out (sys : Sys) : (stopMonitor sys).out = COutcome.exited 0 := by
  unfold stopMonitor
  split
  · rfl
  · split
    · rfl
    · split <;> rfl

theorem stopMonitor_of_absent {sys : Sys} (h : sys.marker = none) :
    stopMonitor sys = ⟨sys, Diag.notRunningMsg, COutcome.exited 0⟩ := by
  unfold stopMonitor
  rw [h]

theorem showStatus_out (sys : Sys) : (showStatus sys).2 = COutcome.exited 0 := by
  unfold showStatus
  split
  · rfl
  · split
    · rfl
    · split <;> rfl

/-! ## Scan lemmas: match indices are strictly increasing -/

theorem scanAux_bound {pred : List Char → Bool} :
    ∀ (lines : List (List Char)) (i : Nat), ∀ x ∈ scanAux pred i lines, i ≤ x.1 := by
  intro lines
  induction lines with
  | nil => intro i x hx; cases hx
  | cons raw rest ih =>
    intro i x hx
    unfold scanAux at hx
    dsimp only at hx
    split at hx
    · have := ih (i + 1) x hx; omega
    · split at hx
      · rcases List.mem_cons.1 hx with h1 | h1
        · rw [h1]
        · have := ih (i + 1) x h1; omega
      · have := ih (i + 1) x hx; omega

theorem scanAux_pairwise {pred : List Char → Bool} :
    ∀ (lines : List (List Char)) (i : Nat),
      (scanAux pred i lines).Pairwise (fun a b => a.1 < b.1) := by
  intro lines
  induction lines with
  | nil => intro i; exact List.Pairwise.nil
  | cons raw rest ih =>
    intro i
    unfold scanAux
    dsimp only
    split
    · exact ih (i + 1)
    · split
      · refine List.Pairwise.cons ?_ (ih (i + 1))
        intro y hy
        have := scanAux_bound rest (i + 1) y hy
        omega
      · exact ih (i + 1)

theorem pySliceFrom_sublist (i : Int) (xs : List α) : (pySliceFrom i xs).Sublist xs := by
  unfold pySliceFrom
  split
  · exact List.drop_sublist _ _
  · exact List.drop_sublist _ _

theorem applyLimit_pairwise {R : α → α → Prop} {limit : Option Int} {ms : List α}
    (h : ms.Pairwise R) : (applyLimit limit ms).Pairwise R := by
  cases limit with
  | none => exact h
  | some n =>
    unfold applyLimit
    dsimp only
    split
    · exact List.Pairwise.sublist (pySliceFrom_sublist _ _) h
    · exact h

theorem searchMatchesOf_pairwise (eng : RegexEngine) (q : Query) (lines : List (List Char)) :
    (searchMatchesOf eng q lines).Pairwise (fun a b => a.1 < b.1) := by
  unfold searchMatchesOf
  cases mkPred eng q with
  | none => exact List.Pairwise.nil
  | some pred => exact applyLimit_pairwise (scanAux_pairwise lines 0)

/-! ## Render lemmas: context deduplication and match-line structure -/

theorem emitCtx_shown_sub (showTime : Bool) (lines : List (List Char)) (st : RState) (i : Nat) :
    st.shown ⊆ (emitCtx showTime lines st i).shown := by
  unfold emitCtx
  split
  · exact fun x hx => hx
  · split
    · exact fun x hx => hx
    · exact fun x hx => List.mem_cons_of_mem _ hx

theorem emitCtx_inv {showTime : Bool} {lines : List (List Char)} {st : RState} {i : Nat}
    (h : RInv st) : RInv (emitCtx showTime lines st i) := by
  unfold emitCtx
  split
  · exact h
  · split
    · exact h
    · rename_i hns _
      constructor
      · intro e he
        rcases List.mem_append.1 he with h1 | h1
        · exact List.mem_cons_of_mem _ (h.1 e h1)
        · rcases List.mem_singleton.1 h1 with rfl
          exact List.mem_cons_self _ _
      · rw [List.filter_append, List.map_append]
        have hk : (mkCtxLine showTime i
            (parseStripped (strip (lines.getD i [])))).kind == RKind.ctx := by
          unfold mkCtxLine; rfl
        rw [List.filter_cons, if_pos hk, List.filter_nil]
        have hnotin : i ∉ (st.out.filter (fun e => e.kind == RKind.ctx)).map RLine.idx := by
          intro hmem
          rcases List.mem_map.1 hmem with ⟨e, he, hei⟩
          have : e ∈ st.out := (List.mem_filter.1 he).1
          exact hns (hei ▸ h.1 e this)
        simp only [List.map_cons, List.map_nil]
        rw [List.nodup_append]
        refine ⟨h.2, List.nodup_singleton _, ?_⟩
        intro x hx hx1
        rcases List.mem_singleton.1 hx1 with rfl
        exact hnotin (by simpa [mkCtxLine] using hx)

theorem foldl_emitCtx_inv {showTime : Bool} {lines : List (List Char)} :
    ∀ (idxs : List Nat) (st : RState), RInv st →
      RInv (idxs.foldl (emitCtx showTime lines) st) := by
  intro idxs
  induction idxs with
  | nil => intro st h; exact h
  | cons i rest ih =>
    intro st h
    exact ih (emitCtx showTime lines st i) (emitCtx_inv h)

theorem hit_push_inv {showTime : Bool} {st : RState} {mt : Nat × List Char × List Char}
    (h : RInv st) :
    RInv ⟨mt.1 :: st.shown, st.out ++ [mkHitLine showTime mt]⟩ := by
  constructor
  · intro e he
    rcases List.mem_append.1 he with h1 | h1
    · exact List.mem_cons_of_mem _ (h.1 e h1)
    · rcases List.mem_singleton.1 h1 with rfl
      exact List.mem_cons_self _ _
  · have hk : ((mkHitLine showTime mt).kind == RKind.ctx) = false := by
      unfold mkHitLine; rfl
    simpa [List.filter_append, List.filter_cons, hk] using h.2

theorem renderStep_inv {showTime : Bool} {before after : Int} {lines : List (List Char)}
    {st : RState} {mt : Nat × List Char × List Char} (h : RInv st) :
    RInv (renderStep showTime before after lines st mt) := by
  unfold renderStep
  exact foldl_emitCtx_inv _ _ (hit_push_inv (foldl_emitCtx_inv _ _ h))

theorem renderAll_inv (showTime : Bool) (before after : Int) (lines : List (List Char)) :
    ∀ (ms : List (Nat × List Char × List Char)) (st : RState), RInv st →
      RInv (ms.foldl (renderStep showTime before after lines) st) := by
  intro ms
  induction ms with
  | nil => intro st h; exact h
  | cons mt rest ih =>
    intro st h
    exact ih _ (renderStep_inv h)

theorem renderAll_ctx_nodup (showTime : Bool) (before after : Int)
    (lines : List (List Char)) (ms : List (Nat × List Char × List Char)) :
    (((renderAll showTime before after lines ms).filter
      (fun e => e.kind == RKind.ctx)).map RLine.idx).Nodup := by
  have h := renderAll_inv showTime before after lines ms ⟨[], []⟩
    ⟨fun e he => absurd he (List.not_mem_nil e), List.Pairwise.nil⟩
  exact h.2

theorem emitCtx_hits {showTime : Bool} {lines : List (List Char)} (st : RState) (i : Nat) :
    (emitCtx showTime lines st i).out.filter (fun e => e.kind == RKind.hit)
      = st.out.filter (fun e => e.kind == RKind.hit) := by
  unfold emitCtx
  split
  · rfl
  · split
    · rfl
    · simp [List.filter_append, List.filter_cons, mkCtxLine]

theorem foldl_emitCtx_hits {showTime : Bool} {lines : List (List Char)} :
    ∀ (idxs : List Nat) (st : RState),
      (idxs.foldl (emitCtx showTime lines) st).out.filter (fun e => e.kind == RKind.hit)
        = st.out.filter (fun e => e.kind == RKind.hit) := by
  intro idxs
  induction idxs with
  | nil => intro st; rfl
  | cons i rest ih =>
    intro st
    rw [List.foldl_cons, ih, emitCtx_hits]

theorem renderStep_hits {showTime : Bool} {before after : Int} {lines : List (List Char)}
    (st : RState) (mt : Nat × List Char × List Char) :
    (renderStep showTime before after lines st mt).out.filter (fun e => e.kind == RKind.hit)
      = st.out.filter (fun e => e.kind == RKind.hit) ++ [mkHitLine showTime mt] := by
  unfold renderStep
  dsimp only
  rw [foldl_emitCtx_hits]
  dsimp only
  rw [List.filter_append, foldl_emitCtx_hits]
  have hk : ((mkHitLine showTime mt).kind == RKind.hit) = true := by
    unfold mkHitLine; rfl
  simp [List.filter_cons, hk]

theorem renderAll_hits_aux {showTime : Bool} {before after : Int} {lines : List (List Char)} :
    ∀ (ms : List (Nat × List Char × List Char)) (st : RState),
      (ms.foldl (renderStep showTime before after lines) st).out.filter
          (fun e => e.kind == RKind.hit)
        = st.out.filter (fun e => e.kind == RKind.hit) ++ ms.map (mkHitLine showTime) := by
  intro ms
  induction ms with
  | nil => intro st; simp
  | cons mt rest ih =>
    intro st
    rw [List.foldl_cons, ih, renderStep_hits]
    simp

theorem renderAll_hits (showTime : Bool) (before after : Int) (lines : List (List Char))
    (ms : List (Nat × List Char × List Char)) :
    ((renderAll showTime before after lines ms).filter
        (fun e => e.kind == RKind.hit)).map RLine.idx = ms.map (fun mt => mt.1) := by
  unfold renderAll
  rw [renderAll_hits_aux]
  simp only [List.filter_nil, List.nil_append, List.map_map]
  rfl

theorem renderAll_hit_nodup (showTime : Bool) (before after : Int)
    (lines : List (List Char)) (ms : List (Nat × List Char × List Char))
    (h : ms.Pairwise (fun a b => a.1 < b.1)) :
    (((renderAll showTime before after lines ms).filter
      (fun e => e.kind == RKind.hit)).map RLine.idx).Nodup := by
  rw [renderAll_hits]
  refine List.Pairwise.map _ ?_ h
  intro a b hab
  omega

theorem mkPred_regex_none {eng : RegexEngine} {q : Query} (hreg : q.regex = true)
    (hcomp : eng q.term q.caseSensitive = none) : mkPred eng q = none := by
  unfold mkPred
  rw [if_pos hreg]
  exact hcomp

theorem searchCommandLog_true_some (eng : RegexEngine) (content : List Char) (q : Query) :
    searchCommandLog eng true (some content) q
      = match mkPred eng q with
        | none => SearchOutcome.errBadPattern
        | some _ =>
          match searchMatchesOf eng q (pyReadlines content) with
          | [] => SearchOutcome.noMatches
          | ms => SearchOutcome.ok (renderAll q.showTime q.before q.after
              (pyReadlines content) ms) := rfl

theorem cliRun_blast (eng : RegexEngine) (sys : Sys) (log : Option (List Char))
    (pid : Nat) (q : Query) :
    cliRun eng sys log pid (Cli.blast q)
      = COutcome.exited (searchExit (searchCommandLog eng sys.marker.isSome log q)) := rfl

/-! ## Claim theorems -/

/-- C1, counterexample: the claim quantifies over every start invocation, but a
plain `start` (without `--daemon`) performs no marker-file read at all: from a
coherent state whose recorded process is alive, it writes a new marker and
leaves two live monitor processes. -/
theorem claim1_counterexample :
    goodSysB sysOneLive = true ∧
    livenessProbe sysOneLive (5 : Int) = true ∧
    (startPlain sysOneLive 7).monitors.length = 2 ∧
    (startPlain sysOneLive 7).marker ≠ sysOneLive.marker := by decide

/-- C1, amended: restricted to `start --daemon` (`run_as_daemon`) the claim
holds — any sequence of daemon starts from a coherent state preserves
coherence (hence at most one running monitor); a start that finds a live
recorded process fails with AlreadyRunning and changes nothing; a start that
finds a dead recorded process deletes the stale marker and writes its own. -/
theorem claim1_amended :
    (∀ (sys : Sys) (pids : List Nat), goodSysB sys = true →
      goodSysB (execStarts sys pids) = true ∧ (execStarts sys pids).monitors.length ≤ 1) ∧
    (∀ (sys : Sys) (cs : List Char) (p : Int) (newPid : Nat),
      sys.marker = some cs → pyParseInt cs = some p → livenessProbe sys p = true →
      runAsDaemon sys newPid = (sys, DOut.alreadyRunning)) ∧
    (∀ (sys : Sys) (cs : List Char) (p : Int) (newPid : Nat),
      sys.marker = some cs → pyParseInt cs = some p → livenessProbe sys p = false →
      (runAsDaemon sys newPid).2 = DOut.started ∧
      (runAsDaemon sys newPid).1.marker = some (natChars newPid) ∧
      (runAsDaemon sys newPid).1.monitors = newPid :: sys.monitors) := by
  refine ⟨?_, ?_, ?_⟩
  · intro sys pids h
    have hg := execStarts_good pids sys h
    exact ⟨hg, goodSysB_len hg⟩
  · intro sys cs p newPid hmar hparse hlive
    exact runAsDaemon_already newPid hmar hparse hlive
  · intro sys cs p newPid hmar hparse hlive
    exact runAsDaemon_stale newPid hmar hparse hlive

/-- C1, witness: two consecutive daemon starts from the empty system leave a
coherent state with a single running monitor. -/
theorem claim1_witness :
    goodSysB (execStarts sysEmpty [3, 4]) = true ∧
    (execStarts sysEmpty [3, 4]).monitors.length ≤ 1 :=
  claim1_amended.1 sysEmpty [3, 4] (by decide)

/-- C2, counterexample: with two adjacent matching records and `after = 1`,
record 1 is printed once as after-context of match 0 and again as a match
line — the match print (lines 272-277) consults no `lines_shown` set, so the
rendered indices are `[0, 1, 1]`, not each-index-at-most-once. -/
theorem claim2_counterexample :
    resultIndices (searchCommandLog engNone true (some logTwoFoo) qAfter1) = [0, 1, 1] := by
  decide

/-- C2, amended: deduplication holds separately for context lines and for
match lines: in any successful search output, no index is printed twice as a
context line and no index is printed twice as a match line; an index shown
first as context of an earlier match and later being a match itself is
printed twice in total. -/
theorem claim2_amended :
    ∀ (eng : RegexEngine) (log : List Char) (q : Query) (out : List RLine),
      searchCommandLog eng true (some log) q = SearchOutcome.ok out →
      ((out.filter (fun e => e.kind == RKind.ctx)).map RLine.idx).Nodup ∧
      ((out.filter (fun e => e.kind == RKind.hit)).map RLine.idx).Nodup := by
  intro eng log q out h
  unfold searchCommandLog at h
  cases hpred : mkPred eng q with
  | none => rw [hpred] at h; cases h
  | some pred =>
    rw [hpred] at h
    dsimp only at h
    cases hms : searchMatchesOf eng q (pyReadlines log) with
    | nil => rw [hms] at h; cases h
    | cons m rest =>
      rw [hms] at h
      dsimp only at h
      have hout : renderAll q.showTime q.before q.after (pyReadlines log) (m :: rest) = out := by
        injection h
      rw [← hout]
      refine ⟨renderAll_ctx_nodup _ _ _ _ _, renderAll_hit_nodup _ _ _ _ _ ?_⟩
      rw [← hms]
      exact searchMatchesOf_pairwise eng q (pyReadlines log)

/-- C2, witness: on the two-match fixture the per-kind deduplication holds
(indices `[0]` as context and `[0, 1]` as matches, each list duplicate-free). -/
theorem claim2_witness :
    ((outTwoFoo.filter (fun e => e.kind == RKind.ctx)).map RLine.idx).Nodup ∧
    ((outTwoFoo.filter (fun e => e.kind == RKind.hit)).map RLine.idx).Nodup :=
  claim2_amended engNone logTwoFoo qAfter1 outTwoFoo (by decide)

/-- C3, counterexample: `if limit and len(matches) > limit` uses Python
truthiness, so a set limit of 0 — with one match, which exceeds it — keeps
the whole match list instead of the last 0 matches. -/
theorem claim3_counterexample :
    applyLimit (some 0) [(0, ([] : List Char), (['a'] : List Char))]
      = [(0, ([] : List Char), (['a'] : List Char))] ∧
    ([(0, ([] : List Char), (['a'] : List Char))].length > 0) := by decide

/-- C3, amended: for a set limit of at least 1 with more matches than the
limit, exactly the last `limit` matches (the log-order suffix) are kept;
a set limit of 0 is treated as unset and keeps every match. -/
theorem claim3_amended :
    (∀ (n : Int) (ms : List (Nat × List Char × List Char)), 1 ≤ n → n < (ms.length : Int) →
      applyLimit (some n) ms = ms.drop (ms.length - n.toNat) ∧
      (applyLimit (some n) ms).length = n.toNat) ∧
    (∀ ms : List (Nat × List Char × List Char), applyLimit (some 0) ms = ms) := by
  constructor
  · intro n ms h1 h2
    have hcond : n ≠ 0 ∧ (ms.length : Int) > n := ⟨by omega, by omega⟩
    have hneg : (-n) < 0 := by omega
    unfold applyLimit pySliceFrom
    dsimp only
    rw [if_pos hcond, if_pos hneg]
    have harg : ((ms.length : Int) + -n).toNat = ms.length - n.toNat := by omega
    rw [harg]
    refine ⟨rfl, ?_⟩
    rw [List.length_drop]
    omega
  · intro ms
    unfold applyLimit
    dsimp only
    rw [if_neg (by simp)]

/-- C3, witness: limit 1 on a two-match list keeps exactly the last match. -/
theorem claim3_witness :
    applyLimit (some 1) msTwo = msTwo.drop (msTwo.length - (1 : Int).toNat) ∧
    (applyLimit (some 1) msTwo).length = (1 : Int).toNat :=
  claim3_amended.1 1 msTwo (by decide) (by decide)

/-- C4, counterexample: appending one record whose text contains an interior
line break — `'\n'`, or a lone `'\r'` under the reader's universal-newline
text mode — yields two records on read-back, not one; and a delimiter-less
line comes back with its stripped text, not the raw line. -/
theorem claim4_counterexample :
    (loadAll (logAppend [] (("2024-01-01 00:00:00").toList) (("a\nb").toList))).length = 2 ∧
    (loadAll (logAppend [] (("2024-01-01 00:00:00").toList) (("a\rb").toList))).length = 2 ∧
    loadAll ((" echo hi \n").toList) = [(([] : List Char), ("echo hi").toList)] ∧
    loadAll ((" echo hi \n").toList) ≠ [(([] : List Char), (" echo hi ").toList)] := by
  decide

/-- C4, amended: for texts whose stripped form contains no newline and no
carriage return (and well-formed timestamps), appending `r1..rn` and reading
back yields exactly those `n` records in order, each text trimmed and each
timestamp preserved; a stripped line with no `']'` parses to an empty
timestamp with the stripped line itself as text. -/
theorem claim4_amended :
    (∀ recs : List (List Char × List Char),
      (∀ r ∈ recs, tsOkB r.1 = true ∧ '\n' ∉ strip r.2 ∧ '\r' ∉ strip r.2) →
      loadAll (logAppendAll [] recs) = recs.map (fun r => (r.1, strip r.2))) ∧
    (∀ l : List Char, ']' ∉ l → parseStripped l = ([], l)) :=
  ⟨fun _ h => loadAll_roundtrip h, fun _ h => parse_no_rb h⟩

/-- C4, witness: one well-formed record round-trips with its text trimmed. -/
theorem claim4_witness :
    loadAll (logAppendAll [] [recOne]) = [recOne].map (fun r => (r.1, strip r.2)) :=
  claim4_amended.1 [recOne] (by decide)

/-- C5, counterexample: `start --daemon` against a live daemon prints
"already running" and returns (exit 0), and `stop` with nothing running
prints a diagnostic and returns (exit 0) — both guard errors exit zero,
contrary to the claim. -/
theorem claim5_counterexample :
    cliRun engNone sysOneLive (some logTwoFoo) 7 (Cli.start true) = COutcome.exited 0 ∧
    cliRun engNone sysEmpty (some logTwoFoo) 7 Cli.stopCmd = COutcome.exited 0 := by decide

/-- C5, amended: help and term-less blast exit 0; blast's operational errors
(missing marker, missing log, invalid pattern) exit 1; but the guard errors
AlreadyRunning (on `start --daemon`) and NotRunning (on `stop`/`status`)
print a diagnostic and exit 0, not non-zero. -/
theorem claim5_amended :
    (∀ (eng : RegexEngine) (sys : Sys) (log : Option (List Char)) (pid : Nat),
      cliRun eng sys log pid Cli.help = COutcome.exited 0 ∧
      cliRun eng sys log pid Cli.blastNoTerm = COutcome.exited 0) ∧
    (∀ (eng : RegexEngine) (sys : Sys) (pid : Nat) (q : Query),
      sys.marker.isSome = true →
      cliRun eng sys none pid (Cli.blast q) = COutcome.exited 1) ∧
    (∀ (eng : RegexEngine) (sys : Sys) (log : List Char) (pid : Nat) (q : Query),
      sys.marker.isSome = true → q.regex = true → eng q.term q.caseSensitive = none →
      cliRun eng sys (some log) pid (Cli.blast q) = COutcome.exited 1) ∧
    (∀ (eng : RegexEngine) (sys : Sys) (log : Option (List Char)) (pid : Nat) (q : Query),
      sys.marker = none →
      cliRun eng sys log pid (Cli.blast q) = COutcome.exited 1) ∧
    (∀ (eng : RegexEngine) (sys : Sys) (log : Option (List Char)) (pid : Nat)
      (cs : List Char) (p : Int),
      sys.marker = some cs → pyParseInt cs = some p → livenessProbe sys p = true →
      cliRun eng sys log pid (Cli.start true) = COutcome.exited 0) ∧
    (∀ (eng : RegexEngine) (sys : Sys) (log : Option (List Char)) (pid : Nat),
      sys.marker = none →
      cliRun eng sys log pid Cli.stopCmd = COutcome.exited 0 ∧
      cliRun eng sys log pid Cli.statusCmd = COutcome.exited 0) := by
  refine ⟨?_, ?_, ?_, ?_, ?_, ?_⟩
  · intro eng sys log pid
    exact ⟨rfl, rfl⟩
  · intro eng sys pid q h
    rw [cliRun_blast, h]
    rfl
  · intro eng sys log pid q h hreg hcomp
    rw [cliRun_blast, h, searchCommandLog_true_some, mkPred_regex_none hreg hcomp]
    rfl
  · intro eng sys log pid q h
    rw [cliRun_blast, h]
    cases log <;> rfl
  · intro eng sys log pid cs p hmar hparse hlive
    unfold cliRun
    rw [runAsDaemon_already pid hmar hparse hlive]
  · intro eng sys log pid h
    unfold cliRun
    rw [stopMonitor_out, showStatus_out]
    exact ⟨rfl, rfl⟩

/-- C5, witness: blast with no marker file exits 1. -/
theorem claim5_witness :
    cliRun engNone sysEmpty (some logTwoFoo) 7 (Cli.blast qAfter1) = COutcome.exited 1 :=
  claim5_amended.2.2.2.1 engNone sysEmpty (some logTwoFoo) 7 qAfter1 rfl

/-- C6, code bug: `stop` and `status` recover from any marker content via
`except Exception`, but `run_as_daemon` guards `os.kill(int(pid), 0)` with
`except OSError` only, so non-decimal marker content (`"abc"`) raises an
uncaught `ValueError` and `start --daemon` crashes instead of printing a
one-line diagnostic. -/
theorem claim6_bug :
    (∀ sys : Sys, (stopMonitor sys).out ≠ COutcome.crashed) ∧
    (∀ sys : Sys, (showStatus sys).2 ≠ COutcome.crashed) ∧
    (runAsDaemon sysGarbage 7).2 = DOut.crashed := by
  refine ⟨?_, ?_, by decide⟩
  · intro sys
    rw [stopMonitor_out]
    decide
  · intro sys
    rw [showStatus_out]
    decide

/-- C7: stop always leaves the marker absent and exits normally, for every
starting state — including dead recorded processes and unparseable marker
content — and a second consecutive stop is a no-op success. -/
theorem claim7_stop_idempotent :
    ∀ sys : Sys,
      (stopMonitor sys).sys.marker = none ∧
      (stopMonitor sys).out = COutcome.exited 0 ∧
      stopMonitor (stopMonitor sys).sys
        = ⟨(stopMonitor sys).sys, Diag.notRunningMsg, COutcome.exited 0⟩ := by
  intro sys
  exact ⟨stopMonitor_marker sys, stopMonitor_out sys,
    stopMonitor_of_absent (stopMonitor_marker sys)⟩

/-- C8: the candidate context window of a match at index `m` is exactly
`[max(0, m-before), m)` before and `(m, min(len-1, m+after)]` after, with
over-large `before`/`after` silently clamped (the window functions are total
and never fail). -/
theorem claim8_window :
    ∀ (m len : Nat) (before after : Int), 0 ≤ before → 0 ≤ after →
      (∀ i : Nat, i ∈ beforeIdxs m before ↔
        (max 0 ((m : Int) - before) ≤ (i : Int) ∧ i < m)) ∧
      (∀ i : Nat, i ∈ afterIdxs m len after ↔
        ((m : Int) < (i : Int) ∧ (i : Int) ≤ min ((len : Int) - 1) ((m : Int) + after))) := by
  intro m len before after hb ha
  constructor
  · intro i
    unfold beforeIdxs
    by_cases h : (0 : Int) < before
    · rw [if_pos h]
      dsimp only
      rw [List.mem_range'_1]
      omega
    · rw [if_neg h]
      simp only [List.not_mem_nil, false_iff]
      omega
  · intro i
    unfold afterIdxs
    by_cases h : (0 : Int) < after
    · rw [if_pos h]
      dsimp only
      rw [List.mem_range'_1]
      omega
    · rw [if_neg h]
      simp only [List.not_mem_nil, false_iff]
      omega

/-- C8, witness: the window bounds instantiated at `m = 5`, `len = 10`,
`before = 2`, `after = 3`. -/
theorem claim8_witness :
    (∀ i : Nat, i ∈ beforeIdxs 5 2 ↔
      (max 0 ((5 : Int) - 2) ≤ (i : Int) ∧ i < 5)) ∧
    (∀ i : Nat, i ∈ afterIdxs 5 10 3 ↔
      ((5 : Int) < (i : Int) ∧ (i : Int) ≤ min ((10 : Int) - 1) ((5 : Int) + 3))) :=
  claim8_window 5 10 2 3 (by decide) (by decide)

/-- C9: a pattern the regex engine rejects makes the search fail with the
InvalidPattern outcome (exit 1) with no rendered output, independently of the
log's records; and the timestamp-display toggle never changes the computed
match list. -/
theorem claim9_invalid_pattern :
    (∀ (eng : RegexEngine) (log : List Char) (q : Query),
      q.regex = true → eng q.term q.caseSensitive = none →
      searchCommandLog eng true (some log) q = SearchOutcome.errBadPattern ∧
      searchExit (searchCommandLog eng true (some log) q) = 1) ∧
    (∀ (eng : RegexEngine) (q : Query) (lines : List (List Char)) (b1 b2 : Bool),
      searchMatchesOf eng { q with showTime := b1 } lines
        = searchMatchesOf eng { q with showTime := b2 } lines) := by
  constructor
  · intro eng log q hreg hcomp
    have h1 : searchCommandLog eng true (some log) q = SearchOutcome.errBadPattern := by
      unfold searchCommandLog
      rw [mkPred_regex_none hreg hcomp]
    exact ⟨h1, by rw [h1]; rfl⟩
  · intro eng q lines b1 b2
    rfl

/-- C9, witness: the always-rejecting engine on a regex query yields the
InvalidPattern failure with exit code 1. -/
theorem claim9_witness :
    searchCommandLog engNone true (some logTwoFoo) qRegex = SearchOutcome.errBadPattern ∧
    searchExit (searchCommandLog engNone true (some logTwoFoo) qRegex) = 1 :=
  claim9_invalid_pattern.1 engNone logTwoFoo qRegex rfl rfl

/-- C10: `blast`'s running-daemon check reads only the existence of the
marker file — the search result is invariant under any change of marker
content or process liveness, and an absent marker yields the NotRunning
failure for every log, even one full of matches. -/
theorem claim10_marker_existence_only :
    (∀ (eng : RegexEngine) (sys sys2 : Sys) (log : Option (List Char)) (q : Query),
      sys.marker.isSome = sys2.marker.isSome →
      searchRun eng sys log q = searchRun eng sys2 log q) ∧
    (∀ (eng : RegexEngine) (sys : Sys) (log : Option (List Char)) (q : Query),
      sys.marker = none → searchRun eng sys log q = SearchOutcome.errNotRunning) := by
  constructor
  · intro eng sys sys2 log q h
    unfold searchRun
    rw [h]
  · intro eng sys log q h
    unfold searchRun
    rw [h]
    cases log <;> rfl

/-- C10, witness: a marker recording a dead process and a marker recording a
live one give identical search results. -/
theorem claim10_witness :
    searchRun engNone sysStale (some logTwoFoo) qAfter1
      = searchRun engNone sysOneLive (some logTwoFoo) qAfter1 :=
  claim10_marker_existence_only.1 engNone sysStale sysOneLive (some logTwoFoo) qAfter1 rfl

end TM
